import Mathlib

/-!
# Verification of the DesignSync annotation/undo engine

Shallow embedding of the core client subsystem of the DesignSync visual-QA
tool: the normalized document model (`Project` → `DevImage`/`Issue`/
`Annotation`), the snapshot-based undo history (`pushHistory`/`handleUndo`
in `src/App.tsx`), the tool state machine pointer handlers
(`handleToolMouseDown`/`handleToolMouseUp`/`handleWindowMove` in
`src/components/ComparisonView.tsx`), AI-result ingestion (`startAnalysis`
in `src/App.tsx`) and issue deletion (`onDeleteIssue` in `src/App.tsx`).

JavaScript numbers are embedded as exact rationals (`ℚ`); generated uuids
are embedded as a `Nat` counter threaded through the computation (each
`uuidv4()` call yields the counter value and bumps it).
-/

/-- `ToolMode` enum (declared after the separator in
`src/services/geminiService.ts`, i.e. the repository's `types.ts`). -/
inductive ToolMode where
  | POINTER
  | HAND
  | COLOR_PICKER
  | RULER
  | INSPECTOR
  | ALIGNER
deriving DecidableEq, Repr

/-- `ComparisonMode` enum from `types.ts` (members as used in the source). -/
inductive ComparisonMode where
  | SIDE_BY_SIDE
  | SLIDER
  | OVERLAY
deriving DecidableEq, Repr

/-- Annotation `type` field: `'manual' | 'ai' | 'color' | 'measure'`. -/
inductive AnnType where
  | manual
  | ai
  | color
  | measure
deriving DecidableEq, Repr

/-- Issue `severity` field: `'low' | 'medium' | 'high' | 'critical'`. -/
inductive Severity where
  | low
  | medium
  | high
  | critical
deriving DecidableEq, Repr

/-- Issue `status` field: `'open' | 'in_progress' | 'resolved' | 'wont_fix'`. -/
inductive Status where
  | open
  | in_progress
  | resolved
  | wont_fix
deriving DecidableEq, Repr

/-- `DevImage`: id, display name, encoded image payload. -/
structure DevImage where
  id : Nat
  name : String
  data : String
deriving DecidableEq, Repr

/-- `Annotation` entity, fields as constructed/read throughout
`src/App.tsx` and `src/components/ComparisonView.tsx`. Optional fields are
`Option`s; coordinates are percentages as exact rationals. -/
structure Annotation where
  id : Nat
  devImageId : Nat
  x : ℚ
  y : ℚ
  width : Option ℚ := none
  height : Option ℚ := none
  text : String
  type : AnnType
  color : Option String := none
  endX : Option ℚ := none
  endY : Option ℚ := none
deriving DecidableEq, Repr

/-- `Comment.role` union: `'designer' | 'developer'`. -/
inductive Role where
  | designer
  | developer
deriving DecidableEq, Repr

/-- `Comment` interface from the repository's `types.ts`. -/
structure Comment where
  id : Nat
  author : String
  role : Role
  content : String
  timestamp : ℚ
deriving DecidableEq, Repr

/-- `Issue` entity, fields as in the repository's `types.ts` and as
constructed in `src/App.tsx`. -/
structure Issue where
  id : Nat
  devImageId : Nat
  title : String
  description : String
  suggestion : Option String := none
  severity : Severity
  status : Status
  annotationId : Option Nat := none
  comments : Option (List Comment) := none
deriving DecidableEq, Repr

/-- `Project` entity, fields as constructed in `src/App.tsx`
(`DEFAULT_PROJECTS`, `handleAddProject`). -/
structure Project where
  id : Nat
  name : String
  designImage : Option String := none
  devImages : List DevImage := []
  activeDevImageId : Option Nat := none
  issues : List Issue := []
  annotations : List Annotation := []
  figmaUrl : Option String := none
deriving DecidableEq, Repr

/-- The history-relevant slice of the `App` component state: the undo stack
`past` (a list of deep-copied project collections, oldest first) and the
live project collection `projects`. -/
structure HistState where
  past : List (List Project)
  projects : List Project
deriving DecidableEq, Repr

/-- JavaScript `Array.prototype.slice(-20)`: keep the last (at most) 20
elements.  For a list of length `≤ 20` this is the whole list. -/
def jsSliceLast20 {α : Type} (l : List α) : List α :=
  l.drop (l.length - 20)

/-- `pushHistory` (src/App.tsx lines 105-110): append the current project
collection to `past` and keep the last 20 entries. -/
def pushHistory (s : HistState) : HistState :=
  { s with past := jsSliceLast20 (s.past ++ [s.projects]) }

/-- `handleUndo` (src/App.tsx lines 112-119): if the stack is empty do
nothing; otherwise pop the top (last) snapshot and replace the live project
collection with it. -/
def handleUndo (s : HistState) : HistState :=
  match s.past.getLast? with
  | none => s
  | some previous => { past := s.past.dropLast, projects := previous }

/-- A mutating user action as performed by every mutating handler in
`src/App.tsx`: `pushHistory()` followed by a `setProjects`-style update of
the project collection.  `f` is the update the handler applies. -/
def doAction (f : List Project → List Project) (s : HistState) : HistState :=
  { past := (pushHistory s).past, projects := f s.projects }

/-- A sequence of mutating user actions applied in order. -/
def applyActions (fs : List (List Project → List Project)) (s : HistState) :
    HistState :=
  fs.foldl (fun st f => doAction f st) s

-- Basic facts about the embedded history stack.

theorem jsSliceLast20_length {α : Type} (l : List α) :
    (jsSliceLast20 l).length = l.length - (l.length - 20) := by
  simp [jsSliceLast20]

theorem pushHistory_past (s : HistState) :
    (pushHistory s).past = (s.past ++ [s.projects]).drop (s.past.length + 1 - 20) := by
  simp [pushHistory, jsSliceLast20]

theorem pushHistory_past_length (s : HistState) :
    (pushHistory s).past.length = (s.past.length + 1) - (s.past.length + 1 - 20) := by
  rw [pushHistory_past]
  simp

theorem pushHistory_projects (s : HistState) :
    (pushHistory s).projects = s.projects := rfl

theorem handleUndo_of_empty (s : HistState) (h : s.past = []) :
    handleUndo s = s := by
  simp [handleUndo, h]

theorem handleUndo_concat (q : List (List Project)) (pr : List Project)
    (l : List (List Project)) (p : List Project) (h : q = l ++ [p]) :
    handleUndo { past := q, projects := pr } = { past := l, projects := p } := by
  simp [handleUndo, h]

theorem handleUndo_past_length (s : HistState) :
    (handleUndo s).past.length = s.past.length - 1 := by
  unfold handleUndo
  match hl : s.past.getLast? with
  | none =>
    have : s.past = [] := List.getLast?_eq_none_iff.mp hl
    simp [this]
  | some previous =>
    simp

/-- After each push the stack has its previous snapshots below and the
pre-push project collection on top; a drop of the combined list from the
bottom captures the capacity trim. -/
theorem doAction_past (f : List Project → List Project) (s : HistState) :
    (doAction f s).past =
      (s.past ++ [s.projects]).drop (s.past.length + 1 - 20) := by
  simp [doAction, pushHistory_past]

theorem doAction_projects (f : List Project → List Project) (s : HistState) :
    (doAction f s).projects = f s.projects := rfl

theorem doAction_past_length (f : List Project → List Project) (s : HistState) :
    (doAction f s).past.length = (s.past.length + 1) - (s.past.length + 1 - 20) := by
  rw [doAction_past]
  simp

/-- Round-trip characterization: `N` mutating actions followed by `N` undos
restore the starting project collection; the stack loses exactly the
entries the capacity trim evicted at the bottom. -/
theorem undo_iterate_applyActions (fs : List (List Project → List Project)) :
    ∀ s : HistState, fs.length ≤ 20 → s.past.length ≤ 20 →
      handleUndo^[fs.length] (applyActions fs s) =
        { past := s.past.drop (s.past.length + fs.length - 20),
          projects := s.projects } := by
  induction fs with
  | nil =>
    intro s _ h2
    have hz : s.past.length - 20 = 0 := by omega
    simp [applyActions, hz]
  | cons f rest ih =>
    intro s h1 h2
    have hrest : rest.length ≤ 20 := by
      simp at h1
      omega
    have hle' : (doAction f s).past.length ≤ 20 := by
      rw [doAction_past_length]
      omega
    have happ : applyActions (f :: rest) s = applyActions rest (doAction f s) := by
      simp [applyActions]
    have hiter :
        handleUndo^[(f :: rest).length] (applyActions (f :: rest) s) =
          handleUndo (handleUndo^[rest.length] (applyActions rest (doAction f s))) := by
      rw [happ]
      simp [Function.iterate_succ_apply']
    rw [hiter, ih (doAction f s) hrest hle']
    have hDle : s.past.length + (rest.length + 1) - 20 ≤ s.past.length := by
      have : rest.length + 1 ≤ 20 := by simpa using h1
      omega
    have hdrop : (doAction f s).past.drop
          ((doAction f s).past.length + rest.length - 20) =
        s.past.drop (s.past.length + (rest.length + 1) - 20) ++ [s.projects] := by
      rw [doAction_past_length, doAction_past, List.drop_drop,
        ← List.drop_append_of_le_length hDle]
      congr 1
      omega
    rw [handleUndo_concat _ _ _ _ hdrop]
    simp

/-- C1 theorem body: see `c1_undo_restores_initial_state` below. -/
theorem applyActions_past_length (fs : List (List Project → List Project)) :
    ∀ s : HistState, s.past.length ≤ 20 →
      (applyActions fs s).past.length = min (s.past.length + fs.length) 20 := by
  induction fs with
  | nil =>
    intro s h
    simp [applyActions]
    omega
  | cons f rest ih =>
    intro s h
    have happ : applyActions (f :: rest) s = applyActions rest (doAction f s) := by
      simp [applyActions]
    have hlen : (doAction f s).past.length =
        (s.past.length + 1) - (s.past.length + 1 - 20) := doAction_past_length f s
    rw [happ, ih (doAction f s) (by omega), hlen]
    simp
    omega

theorem undo_iterate_past_length (k : Nat) :
    ∀ t : HistState, (handleUndo^[k] t).past.length = t.past.length - k := by
  induction k with
  | zero => intro t; simp
  | succ n ih =>
    intro t
    rw [Function.iterate_succ_apply', handleUndo_past_length, ih]
    omega

/-- The single default project from `DEFAULT_PROJECTS` in `src/App.tsx`
(used as a concrete value in witnesses). -/
def sampleProject : Project :=
  { id := 1, name := "示例页面", designImage := none, devImages := [],
    activeDevImageId := none, issues := [], annotations := [] }

/-- **C1**: For every sequence of N mutating user actions (N ≤ 20) applied
from any starting project collection (stack holding at most its 20-entry
capacity), with a history snapshot pushed before each mutation (`doAction`),
performing undo N times restores the project collection to a state
deep-equal to the starting one. -/
theorem c1_undo_restores_initial_state
    (fs : List (List Project → List Project)) (s : HistState)
    (h1 : fs.length ≤ 20) (h2 : s.past.length ≤ 20) :
    (handleUndo^[fs.length] (applyActions fs s)).projects = s.projects := by
  rw [undo_iterate_applyActions fs s h1 h2]

def c1SampleActions : List (List Project → List Project) :=
  [fun _ => [], fun ps => ps ++ ps]

def c1SampleState : HistState := { past := [], projects := [sampleProject] }

/-- Witness for C1: two concrete mutating actions (wipe the collection,
then duplicate it) on the default project collection are undone by two
undos. -/
theorem c1_witness :
    c1SampleActions.length ≤ 20 ∧ c1SampleState.past.length ≤ 20 ∧
    (handleUndo^[c1SampleActions.length]
        (applyActions c1SampleActions c1SampleState)).projects =
      c1SampleState.projects :=
  ⟨by decide, by decide,
    c1_undo_restores_initial_state c1SampleActions c1SampleState
      (by decide) (by decide)⟩

/-- **C2**: The undo stack never exceeds 20 snapshots; a push onto a full
stack discards the oldest (bottom) entry; an undo on an empty stack is a
no-op leaving the whole state unchanged; and after 21 mutating actions from
an empty stack, 20 undos empty the stack and the 21st undo attempt changes
nothing. -/
theorem c2_history_capacity (s : HistState) :
    (pushHistory s).past.length ≤ 20 ∧
    (s.past.length = 20 → (pushHistory s).past = s.past.tail ++ [s.projects]) ∧
    (s.past = [] → handleUndo s = s) ∧
    (∀ fs : List (List Project → List Project), fs.length = 21 → s.past = [] →
      (handleUndo^[20] (applyActions fs s)).past = [] ∧
      handleUndo^[21] (applyActions fs s) = handleUndo^[20] (applyActions fs s)) := by
  refine ⟨?_, ?_, ?_, ?_⟩
  · rw [pushHistory_past_length]
    omega
  · intro h
    rw [pushHistory_past]
    have h1 : s.past.length + 1 - 20 = 1 := by omega
    rw [h1, List.drop_append_of_le_length (by omega), List.drop_one]
  · exact handleUndo_of_empty s
  · intro fs hlen hpast
    have h0 : s.past.length = 0 := by rw [hpast]; rfl
    have hplen : (applyActions fs s).past.length = 20 := by
      rw [applyActions_past_length fs s (by omega), h0, hlen]
      omega
    have hempty : (handleUndo^[20] (applyActions fs s)).past = [] := by
      have := undo_iterate_past_length 20 (applyActions fs s)
      rw [hplen] at this
      exact List.length_eq_zero.mp (by omega)
    refine ⟨hempty, ?_⟩
    rw [show (21 : ℕ) = 20 + 1 from rfl, Function.iterate_succ_apply']
    exact handleUndo_of_empty _ hempty

def c2FullState : HistState :=
  { past := List.replicate 20 [], projects := [sampleProject] }

def c2Acts21 : List (List Project → List Project) :=
  List.replicate 21 (fun ps => ps)

/-- Witness for C2: a concrete full stack overflows by dropping the oldest
entry; a concrete empty-stack undo is a no-op; 21 concrete actions leave
exactly 20 undos. -/
theorem c2_witness :
    (pushHistory c2FullState).past =
        c2FullState.past.tail ++ [c2FullState.projects] ∧
    handleUndo c1SampleState = c1SampleState ∧
    (handleUndo^[20] (applyActions c2Acts21 c1SampleState)).past = [] ∧
    handleUndo^[21] (applyActions c2Acts21 c1SampleState) =
      handleUndo^[20] (applyActions c2Acts21 c1SampleState) :=
  ⟨(c2_history_capacity c2FullState).2.1 (by decide),
   (c2_history_capacity c1SampleState).2.2.1 (by decide),
   ((c2_history_capacity c1SampleState).2.2.2 c2Acts21 (by decide) (by decide)).1,
   ((c2_history_capacity c1SampleState).2.2.2 c2Acts21 (by decide) (by decide)).2⟩

/-- An image-relative percentage point `{x, y}` as produced by
`getImageRelativeCoords` in `src/components/ComparisonView.tsx`. -/
structure Pt where
  x : ℚ
  y : ℚ
deriving DecidableEq, Repr

/-- `Partial<Annotation>` — the patch object passed to `onAddAnnotation` /
`onUpdateAnnotation`.  A `none` field is an absent key.  (No call site in
the source ever passes an explicitly-`undefined` key, so absent-vs-
undefined need not be distinguished.) -/
structure PartialAnn where
  id : Option Nat := none
  devImageId : Option Nat := none
  x : Option ℚ := none
  y : Option ℚ := none
  width : Option ℚ := none
  height : Option ℚ := none
  text : Option String := none
  type : Option AnnType := none
  color : Option String := none
  endX : Option ℚ := none
  endY : Option ℚ := none
deriving DecidableEq, Repr

/-- `handleToolMouseUp` (src/components/ComparisonView.tsx lines 327-367):
the annotation committed on pointer-up, if any.  The source computes
`dist = Math.sqrt(dx*dx + dy*dy)` and compares `dist > 0.5` (pointer) or
`dist > 0.1` (ruler); both sides being nonnegative, this is embedded as
the equivalent squared comparisons `dx*dx + dy*dy > 1/4` and `> 1/100`. -/
def handleToolMouseUp (activeTool : ToolMode)
    (interactionStart interactionCurrent : Option Pt) : Option PartialAnn :=
  match interactionStart, interactionCurrent with
  | some s, some c =>
      let dx := c.x - s.x
      let dy := c.y - s.y
      let distSq := dx * dx + dy * dy
      if activeTool = ToolMode.RULER then
        if distSq > 1 / 100 then
          some { x := some s.x, y := some s.y, endX := some c.x,
                 endY := some c.y, type := some AnnType.measure }
        else none
      else if activeTool = ToolMode.POINTER then
        if distSq > 1 / 4 then
          some { x := some (min s.x c.x), y := some (min s.y c.y),
                 width := some |dx|, height := some |dy|,
                 type := some AnnType.manual }
        else
          some { x := some c.x, y := some c.y, type := some AnnType.manual }
      else none
  | _, _ => none

theorem handleToolMouseUp_pointer (s c : Pt) :
    handleToolMouseUp ToolMode.POINTER (some s) (some c) =
      if (c.x - s.x) * (c.x - s.x) + (c.y - s.y) * (c.y - s.y) > 1 / 4 then
        some { x := some (min s.x c.x), y := some (min s.y c.y),
               width := some |c.x - s.x|, height := some |c.y - s.y|,
               type := some AnnType.manual }
      else
        some { x := some c.x, y := some c.y, type := some AnnType.manual } := by
  simp [handleToolMouseUp]

/-- **C3**: On pointer-up with the pointer tool, a drag farther than 0.5 (in
percentage space, squared comparison equivalent to the source's Euclidean
one) commits a manual box with top-left `min` corner and `|Δ|` extents —
identically for either ordering of the two corner points — while a shorter
drag (in particular a stationary click, where the release point IS the
click point) commits a manual pin at the release point with no width and no
height. -/
theorem c3_pointer_mouseup (s c : Pt) :
    ((c.x - s.x) * (c.x - s.x) + (c.y - s.y) * (c.y - s.y) > 1 / 4 →
      handleToolMouseUp ToolMode.POINTER (some s) (some c) =
        some { x := some (min s.x c.x), y := some (min s.y c.y),
               width := some |c.x - s.x|, height := some |c.y - s.y|,
               type := some AnnType.manual } ∧
      handleToolMouseUp ToolMode.POINTER (some s) (some c) =
        handleToolMouseUp ToolMode.POINTER (some c) (some s)) ∧
    ((c.x - s.x) * (c.x - s.x) + (c.y - s.y) * (c.y - s.y) ≤ 1 / 4 →
      handleToolMouseUp ToolMode.POINTER (some s) (some c) =
        some { x := some c.x, y := some c.y, width := none, height := none,
               type := some AnnType.manual }) := by
  have hsym : (s.x - c.x) * (s.x - c.x) + (s.y - c.y) * (s.y - c.y) =
      (c.x - s.x) * (c.x - s.x) + (c.y - s.y) * (c.y - s.y) := by ring
  constructor
  · intro h
    constructor
    · rw [handleToolMouseUp_pointer, if_pos h]
    · rw [handleToolMouseUp_pointer s c, handleToolMouseUp_pointer c s, hsym,
        if_pos h, if_pos h]
      rw [min_comm c.x s.x, min_comm c.y s.y, abs_sub_comm s.x c.x,
        abs_sub_comm s.y c.y]
  · intro h
    rw [handleToolMouseUp_pointer, if_neg (by exact not_lt.mpr h)]

/-- Witness for C3: dragging between (10,10) and (40,30) — in either order
— yields the box {x:10, y:10, width:30, height:20}; a stationary click at
(10,10) yields a pin with no width/height. -/
theorem c3_witness :
    handleToolMouseUp ToolMode.POINTER (some ⟨10, 10⟩) (some ⟨40, 30⟩) =
        some { x := some 10, y := some 10, width := some 30, height := some 20,
               type := some AnnType.manual } ∧
    handleToolMouseUp ToolMode.POINTER (some ⟨10, 10⟩) (some ⟨40, 30⟩) =
      handleToolMouseUp ToolMode.POINTER (some ⟨40, 30⟩) (some ⟨10, 10⟩) ∧
    handleToolMouseUp ToolMode.POINTER (some ⟨10, 10⟩) (some ⟨10, 10⟩) =
        some { x := some 10, y := some 10, width := none, height := none,
               type := some AnnType.manual } := by
  have h1 := (c3_pointer_mouseup ⟨10, 10⟩ ⟨40, 30⟩).1 (by norm_num)
  have h2 := (c3_pointer_mouseup ⟨10, 10⟩ ⟨10, 10⟩).2 (by norm_num)
  refine ⟨?_, h1.2, ?_⟩
  · rw [h1.1]
    norm_num [min_def, abs]
  · rw [h2]

/-- The `action` discriminant of the annotation drag state
(src/components/ComparisonView.tsx lines 72-82). -/
inductive DragAction where
  | move
  | resize
deriving DecidableEq, Repr

/-- `dragState` as set by `handleAnnotationMouseDown` /
`handleResizeMouseDown` (src/components/ComparisonView.tsx). -/
structure DragState where
  id : Nat
  action : DragAction
  startX : ℚ
  startY : ℚ
  initialX : ℚ
  initialY : ℚ
  initialW : Option ℚ := none
  initialH : Option ℚ := none
deriving DecidableEq, Repr

/-- The interactive layer's bounding rectangle
(`interactiveLayerRef.current.getBoundingClientRect()`). -/
structure Rect where
  width : ℚ
  height : ℚ
deriving DecidableEq, Repr

/-- `handleWindowMove` (src/components/ComparisonView.tsx lines 112-130):
the `(id, patch)` passed to `onUpdateAnnotation` for one window-level
mouse-move during an annotation drag.  `Math.max(0.5, v)` is `max (1/2) v`
(0.5 = 1/2 exactly); the resize branch fires only when both `initialW` and
`initialH` are defined, exactly as the source's `!== undefined` guard. -/
def handleWindowMove (ds : DragState) (clientX clientY : ℚ) (rect : Rect) :
    Option (Nat × PartialAnn) :=
  let deltaXPercent := (clientX - ds.startX) / rect.width * 100
  let deltaYPercent := (clientY - ds.startY) / rect.height * 100
  match ds.action with
  | DragAction.move =>
      some (ds.id, { x := some (ds.initialX + deltaXPercent),
                     y := some (ds.initialY + deltaYPercent) })
  | DragAction.resize =>
      match ds.initialW, ds.initialH with
      | some w, some h =>
          some (ds.id, { width := some (max (1 / 2) (w + deltaXPercent)),
                         height := some (max (1 / 2) (h + deltaYPercent)) })
      | _, _ => none

/-- JavaScript object spread `{...a, ...up}` applied to an annotation and a
patch (the `onUpdateAnnotation` callback in src/App.tsx line 1244). -/
def applyPatch (a : Annotation) (p : PartialAnn) : Annotation :=
  { id := p.id.getD a.id,
    devImageId := p.devImageId.getD a.devImageId,
    x := p.x.getD a.x,
    y := p.y.getD a.y,
    width := match p.width with | some w => some w | none => a.width,
    height := match p.height with | some h => some h | none => a.height,
    text := p.text.getD a.text,
    type := p.type.getD a.type,
    color := match p.color with | some c => some c | none => a.color,
    endX := match p.endX with | some v => some v | none => a.endX,
    endY := match p.endY with | some v => some v | none => a.endY }

/-- `onUpdateAnnotation` list update (src/App.tsx line 1244):
`annotations.map(a => a.id === id ? {...a, ...up} : a)`. -/
def updateAnnotationList (anns : List Annotation) (id : Nat)
    (up : PartialAnn) : List Annotation :=
  anns.map (fun a => if a.id = id then applyPatch a up else a)

/-- **C7**: During a resize drag, for every initial size and every pointer
position (no matter how negative the requested size), the patched width and
height equal `max(0.5, initial + Δ%)` and are therefore at least 0.5. -/
theorem c7_resize_clamped (ds : DragState) (clientX clientY : ℚ) (rect : Rect)
    (w h : ℚ) (ha : ds.action = DragAction.resize)
    (hw : ds.initialW = some w) (hh : ds.initialH = some h) :
    handleWindowMove ds clientX clientY rect =
      some (ds.id,
        { width := some (max (1 / 2) (w + (clientX - ds.startX) / rect.width * 100)),
          height := some (max (1 / 2) (h + (clientY - ds.startY) / rect.height * 100)) }) ∧
    (1 / 2 : ℚ) ≤ max (1 / 2) (w + (clientX - ds.startX) / rect.width * 100) ∧
    (1 / 2 : ℚ) ≤ max (1 / 2) (h + (clientY - ds.startY) / rect.height * 100) := by
  refine ⟨?_, le_max_left _ _, le_max_left _ _⟩
  simp [handleWindowMove, ha, hw, hh]

def c7SampleDrag : DragState :=
  { id := 3, action := DragAction.resize, startX := 0, startY := 0,
    initialX := 0, initialY := 0, initialW := some 10, initialH := some 10 }

def c7SampleRect : Rect := { width := 100, height := 100 }

/-- Witness for C7: a drag of -15% on a 10%-wide box requests width -5 and
is clamped to exactly 0.5. -/
theorem c7_witness :
    c7SampleDrag.action = DragAction.resize ∧
    handleWindowMove c7SampleDrag (-15) (-15) c7SampleRect =
      some (3, { width := some (1 / 2), height := some (1 / 2) }) := by
  have h := c7_resize_clamped c7SampleDrag (-15) (-15) c7SampleRect 10 10
    rfl rfl rfl
  refine ⟨rfl, ?_⟩
  rw [h.1]
  norm_num [c7SampleDrag, c7SampleRect, max_def]

/-- **C10**: Each drag update is frame-bounded: a move patch changes only
`x`/`y` (to `initial + Δ%`), a resize patch changes only `width`/`height`,
and annotations whose id differs from the dragged one are returned
unchanged (at their original positions, with the list length preserved). -/
theorem c10_drag_frame_bounded (ds : DragState) (clientX clientY : ℚ)
    (rect : Rect) (anns : List Annotation) (a : Annotation) :
    (ds.action = DragAction.move →
      ∃ p, handleWindowMove ds clientX clientY rect = some (ds.id, p) ∧
        (applyPatch a p).x = ds.initialX + (clientX - ds.startX) / rect.width * 100 ∧
        (applyPatch a p).y = ds.initialY + (clientY - ds.startY) / rect.height * 100 ∧
        (applyPatch a p).width = a.width ∧ (applyPatch a p).height = a.height ∧
        (applyPatch a p).type = a.type ∧ (applyPatch a p).text = a.text ∧
        (applyPatch a p).color = a.color ∧ (applyPatch a p).endX = a.endX ∧
        (applyPatch a p).endY = a.endY ∧ (applyPatch a p).id = a.id ∧
        (applyPatch a p).devImageId = a.devImageId) ∧
    (∀ w h, ds.action = DragAction.resize → ds.initialW = some w →
      ds.initialH = some h →
      ∃ p, handleWindowMove ds clientX clientY rect = some (ds.id, p) ∧
        (applyPatch a p).width = some (max (1 / 2) (w + (clientX - ds.startX) / rect.width * 100)) ∧
        (applyPatch a p).height = some (max (1 / 2) (h + (clientY - ds.startY) / rect.height * 100)) ∧
        (applyPatch a p).x = a.x ∧ (applyPatch a p).y = a.y ∧
        (applyPatch a p).type = a.type ∧ (applyPatch a p).text = a.text ∧
        (applyPatch a p).color = a.color ∧ (applyPatch a p).endX = a.endX ∧
        (applyPatch a p).endY = a.endY ∧ (applyPatch a p).id = a.id ∧
        (applyPatch a p).devImageId = a.devImageId) ∧
    (∀ (p : PartialAnn) (i : ℕ) (b : Annotation), anns.get? i = some b →
      b.id ≠ ds.id → (updateAnnotationList anns ds.id p).get? i = some b) ∧
    (∀ p : PartialAnn, (updateAnnotationList anns ds.id p).length = anns.length) := by
  refine ⟨?_, ?_, ?_, ?_⟩
  · intro hm
    exact ⟨{ x := some (ds.initialX + (clientX - ds.startX) / rect.width * 100),
             y := some (ds.initialY + (clientY - ds.startY) / rect.height * 100) },
      by simp [handleWindowMove, hm], rfl, rfl, rfl, rfl, rfl, rfl, rfl, rfl,
      rfl, rfl, rfl⟩
  · intro w h hr hw hh
    exact ⟨{ width := some (max (1 / 2) (w + (clientX - ds.startX) / rect.width * 100)),
             height := some (max (1 / 2) (h + (clientY - ds.startY) / rect.height * 100)) },
      by simp [handleWindowMove, hr, hw, hh], rfl, rfl, rfl, rfl, rfl, rfl,
      rfl, rfl, rfl, rfl, rfl⟩
  · intro p i b hb hne
    rw [List.get?_eq_getElem?] at hb
    rw [updateAnnotationList, List.get?_eq_getElem?, List.getElem?_map, hb]
    simp [hne]
  · intro p
    simp [updateAnnotationList]

def c10SampleAnn : Annotation :=
  { id := 9, devImageId := 4, x := 1, y := 2, width := some 3,
    height := some 4, text := "发现差异", type := AnnType.manual }

/-- Witness for C10: a concrete move drag leaves every non-positional field
of a concrete annotation unchanged, and a concrete unrelated annotation
survives the list update untouched. -/
theorem c10_witness :
    (∃ p, handleWindowMove
        { id := 9, action := DragAction.move, startX := 0, startY := 0,
          initialX := 1, initialY := 2 } 5 5 c7SampleRect = some (9, p) ∧
      (applyPatch c10SampleAnn p).x = 1 + (5 - 0) / 100 * 100 ∧
      (applyPatch c10SampleAnn p).y = 2 + (5 - 0) / 100 * 100 ∧
      (applyPatch c10SampleAnn p).width = c10SampleAnn.width ∧
      (applyPatch c10SampleAnn p).height = c10SampleAnn.height ∧
      (applyPatch c10SampleAnn p).type = c10SampleAnn.type ∧
      (applyPatch c10SampleAnn p).text = c10SampleAnn.text ∧
      (applyPatch c10SampleAnn p).color = c10SampleAnn.color ∧
      (applyPatch c10SampleAnn p).endX = c10SampleAnn.endX ∧
      (applyPatch c10SampleAnn p).endY = c10SampleAnn.endY ∧
      (applyPatch c10SampleAnn p).id = c10SampleAnn.id ∧
      (applyPatch c10SampleAnn p).devImageId = c10SampleAnn.devImageId) ∧
    (∀ p, ([{ c10SampleAnn with id := 7 }] : List Annotation).get? 0 =
        some { c10SampleAnn with id := 7 } →
      (7 : Nat) ≠ 9 →
      (updateAnnotationList [{ c10SampleAnn with id := 7 }] 9 p).get? 0 =
        some { c10SampleAnn with id := 7 }) :=
  ⟨(c10_drag_frame_bounded
      { id := 9, action := DragAction.move, startX := 0, startY := 0,
        initialX := 1, initialY := 2 } 5 5 c7SampleRect
      [{ c10SampleAnn with id := 7 }] c10SampleAnn).1 rfl,
   fun p h1 h2 =>
    (c10_drag_frame_bounded
      { id := 9, action := DragAction.move, startX := 0, startY := 0,
        initialX := 1, initialY := 2 } 5 5 c7SampleRect
      [{ c10SampleAnn with id := 7 }] c10SampleAnn).2.2.1 p 0
      { c10SampleAnn with id := 7 } h1 (by decide)⟩

/-- One candidate finding of the AI collaborator, per the response schema
in `src/services/geminiService.ts`: title/description/suggestion/severity
strings plus an optional `[ymin, xmin, ymax, xmax]` box on the 0-1000
scale.  `severity` is an `Option` because `startAnalysis` defends with
`item.severity || 'medium'`; a malformed box (wrong length or absent) is
any value not of the 4-element shape. -/
structure Finding where
  title : String
  description : String
  suggestion : Option String := none
  severity : Option Severity := none
  boundingBox : Option (List ℚ) := none
deriving DecidableEq, Repr

/-- The annotation pushed for one finding when its `boundingBox` passes the
`Array.isArray(...) && length === 4` check in `startAnalysis`
(src/App.tsx lines 286-298), `none` otherwise. -/
def aiBoxAnn (dev annId : Nat) (item : Finding) : Option Annotation :=
  match item.boundingBox with
  | some [ymin, xmin, ymax, xmax] =>
      some { id := annId, devImageId := dev, x := xmin / 10, y := ymin / 10,
             width := some ((xmax - xmin) / 10),
             height := some ((ymax - ymin) / 10),
             text := item.title, type := AnnType.ai }
  | _ => none

/-- The `aiIssues.forEach` loop of `startAnalysis` (src/App.tsx lines
284-309): accumulates `newAnnotations` and `newIssues`; `ctr` is the uuid
supply (`annId = uuidv4()` then the issue's own `uuidv4()`).  Note the
issue links `annId` whenever `newAnnotations.length > 0` — the length of
the whole accumulated array after this item's conditional push, exactly as
in the source. -/
def processFindings (dev : Nat) :
    List Finding → Nat → List Annotation → List Issue →
      List Annotation × List Issue
  | [], _, anns, issues => (anns, issues)
  | item :: rest, ctr, anns, issues =>
      let anns2 := anns ++ (aiBoxAnn dev ctr item).toList
      let issues2 := issues ++
        [{ id := ctr + 1, devImageId := dev, title := item.title,
           description := item.description, suggestion := item.suggestion,
           severity := item.severity.getD Severity.medium,
           status := Status.open,
           annotationId := if anns2.length > 0 then some ctr else none }]
      processFindings dev rest (ctr + 2) anns2 issues2

theorem processFindings_cons (dev : Nat) (item : Finding) (rest : List Finding)
    (ctr : Nat) (anns : List Annotation) (issues : List Issue) :
    processFindings dev (item :: rest) ctr anns issues =
      processFindings dev rest (ctr + 2)
        (anns ++ (aiBoxAnn dev ctr item).toList)
        (issues ++
          [{ id := ctr + 1, devImageId := dev, title := item.title,
             description := item.description, suggestion := item.suggestion,
             severity := item.severity.getD Severity.medium,
             status := Status.open,
             annotationId :=
               if (anns ++ (aiBoxAnn dev ctr item).toList).length > 0
               then some ctr else none }]) := rfl

/-- The loop only ever appends to its two accumulators. -/
theorem processFindings_extends (dev : Nat) (items : List Finding) :
    ∀ (ctr : Nat) (anns : List Annotation) (issues : List Issue),
      ∃ A I, processFindings dev items ctr anns issues =
        (anns ++ A, issues ++ I) := by
  induction items with
  | nil =>
    intro ctr anns issues
    exact ⟨[], [], by simp [processFindings]⟩
  | cons item rest ih =>
    intro ctr anns issues
    obtain ⟨A, I, h⟩ := ih (ctr + 2)
      (anns ++ (aiBoxAnn dev ctr item).toList)
      (issues ++
        [{ id := ctr + 1, devImageId := dev, title := item.title,
           description := item.description, suggestion := item.suggestion,
           severity := item.severity.getD Severity.medium,
           status := Status.open,
           annotationId :=
             if (anns ++ (aiBoxAnn dev ctr item).toList).length > 0
             then some ctr else none }])
    refine ⟨(aiBoxAnn dev ctr item).toList ++ A,
      { id := ctr + 1, devImageId := dev, title := item.title,
        description := item.description, suggestion := item.suggestion,
        severity := item.severity.getD Severity.medium,
        status := Status.open,
        annotationId :=
          if (anns ++ (aiBoxAnn dev ctr item).toList).length > 0
          then some ctr else none } :: I, ?_⟩
    rw [processFindings_cons, h]
    simp

/-- **C4**: A finding whose `boundingBox` is a well-formed
`[ymin, xmin, ymax, xmax]` (0-1000 scale) — wherever it sits in the batch
and whatever the accumulator state — yields an annotation with
`x = xmin/10`, `y = ymin/10`, `width = (xmax-xmin)/10`,
`height = (ymax-ymin)/10` (percentage space), and a paired issue whose
severity defaults to `medium` when the finding's severity is absent. -/
theorem c4_ai_ingestion (dev ctr : Nat) (item : Finding) (rest : List Finding)
    (anns : List Annotation) (issues : List Issue) (ymin xmin ymax xmax : ℚ)
    (hbb : item.boundingBox = some [ymin, xmin, ymax, xmax]) :
    ∃ A I,
      processFindings dev (item :: rest) ctr anns issues =
        (anns ++ ({ id := ctr, devImageId := dev, x := xmin / 10,
                    y := ymin / 10, width := some ((xmax - xmin) / 10),
                    height := some ((ymax - ymin) / 10), text := item.title,
                    type := AnnType.ai } : Annotation) :: A,
         issues ++ ({ id := ctr + 1, devImageId := dev, title := item.title,
                      description := item.description,
                      suggestion := item.suggestion,
                      severity := item.severity.getD Severity.medium,
                      status := Status.open,
                      annotationId := some ctr } : Issue) :: I) ∧
      (item.severity = none → item.severity.getD Severity.medium =
        Severity.medium) := by
  have ha : aiBoxAnn dev ctr item =
      some { id := ctr, devImageId := dev, x := xmin / 10, y := ymin / 10,
             width := some ((xmax - xmin) / 10),
             height := some ((ymax - ymin) / 10), text := item.title,
             type := AnnType.ai } := by
    rw [aiBoxAnn, hbb]
  obtain ⟨A, I, h⟩ := processFindings_extends dev rest (ctr + 2)
    (anns ++ (aiBoxAnn dev ctr item).toList)
    (issues ++
      [{ id := ctr + 1, devImageId := dev, title := item.title,
         description := item.description, suggestion := item.suggestion,
         severity := item.severity.getD Severity.medium,
         status := Status.open,
         annotationId :=
           if (anns ++ (aiBoxAnn dev ctr item).toList).length > 0
           then some ctr else none }])
  refine ⟨(aiBoxAnn dev ctr item).toList.tail ++ A, I, ?_,
    fun hs => by rw [hs]; rfl⟩
  rw [processFindings_cons, h, ha]
  simp

def c4SampleFinding : Finding :=
  { title := "颜色偏差", description := "按钮色值不一致",
    suggestion := some "background-color: #4F46E5", severity := none,
    boundingBox := some [100, 200, 400, 600] }

/-- Witness for C4: the boundingBox `[100, 200, 400, 600]` yields an
annotation with x=20, y=10, width=40, height=30 and a medium-severity
issue. -/
theorem c4_witness :
    c4SampleFinding.boundingBox = some [100, 200, 400, 600] ∧
    ∃ A I, processFindings 4 [c4SampleFinding] 0 [] [] =
      (({ id := 0, devImageId := 4, x := 20, y := 10, width := some 40,
          height := some 30, text := "颜色偏差",
          type := AnnType.ai } : Annotation) :: A,
       ({ id := 1, devImageId := 4, title := "颜色偏差",
          description := "按钮色值不一致",
          suggestion := some "background-color: #4F46E5",
          severity := Severity.medium, status := Status.open,
          annotationId := some 0 } : Issue) :: I) := by
  refine ⟨rfl, ?_⟩
  obtain ⟨A, I, h, _⟩ :=
    c4_ai_ingestion 4 0 c4SampleFinding [] [] [] 100 200 400 600 rfl
  refine ⟨A, I, ?_⟩
  rw [h]
  norm_num [c4SampleFinding]

def c5BoxedFinding : Finding :=
  { title := "间距过大", description := "上边距偏差 8px",
    severity := some Severity.high, boundingBox := some [100, 200, 400, 600] }

def c5BoxlessFinding : Finding :=
  { title := "整体风格不符", description := "无法定位具体区域",
    severity := none, boundingBox := none }

/-- **C5 failing-input evaluation**: ingesting a boxed finding followed by
a box-less one makes the second issue carry `annotationId = some 2` — the
fresh uuid generated for an annotation that was never created — because
the source tests `newAnnotations.length > 0` (non-emptiness of the whole
batch so far) instead of whether THIS finding produced a box.  The only
annotation in the batch has id 0, so the reference dangles, contradicting
the claimed invariant. -/
theorem c5_dangling_annotation_reference :
    ((processFindings 4 [c5BoxedFinding, c5BoxlessFinding] 0 [] []).2.map
        (fun i => i.annotationId) = [some 0, some 2]) ∧
    ((processFindings 4 [c5BoxedFinding, c5BoxlessFinding] 0 [] []).1.map
        (fun a => a.id) = [0]) ∧
    (∀ a ∈ (processFindings 4 [c5BoxedFinding, c5BoxlessFinding] 0 [] []).1,
      a.id ≠ 2) := by
  refine ⟨rfl, rfl, by decide⟩

-- Generic facts about lists whose elements carry a nodup key.

theorem find?_eq_some_of_key {α : Type} (f : α → Nat) (k : Nat) :
    ∀ (l : List α) (t : α), (l.map f).Nodup → t ∈ l → f t = k →
      l.find? (fun x => f x == k) = some t := by
  intro l
  induction l with
  | nil =>
    intro t _ ht _
    simp at ht
  | cons a as ih =>
    intro t hn ht hk
    have hmap : (f a :: as.map f).Nodup := by simpa using hn
    have hn2 := List.nodup_cons.mp hmap
    rcases List.mem_cons.mp ht with rfl | hmem
    · rw [List.find?_cons_of_pos _ (by simp [hk])]
    · have ha : ¬ f a = k := by
        intro ha
        have h1 : f t ∈ as.map f := List.mem_map_of_mem f hmem
        rw [hk, ← ha] at h1
        exact hn2.1 h1
      rw [List.find?_cons_of_neg _ (by simp [ha])]
      exact ih t hn2.2 hmem hk

theorem filter_key_eq_singleton {α : Type} (f : α → Nat) (k : Nat) :
    ∀ (l : List α) (t : α), (l.map f).Nodup → t ∈ l → f t = k →
      l.filter (fun x => f x == k) = [t] := by
  intro l
  induction l with
  | nil =>
    intro t _ ht _
    simp at ht
  | cons a as ih =>
    intro t hn ht hk
    have hmap : (f a :: as.map f).Nodup := by simpa using hn
    have hn2 := List.nodup_cons.mp hmap
    rcases List.mem_cons.mp ht with rfl | hmem
    · rw [List.filter_cons_of_pos (by simp [hk])]
      have hnil : as.filter (fun x => f x == k) = [] := by
        rw [List.filter_eq_nil_iff]
        intro b hb
        simp only [beq_iff_eq]
        intro hfb
        have hmem2 : f b ∈ List.map f as := List.mem_map_of_mem f hb
        rw [hfb, ← hk] at hmem2
        exact hn2.1 hmem2
      rw [hnil]
    · have ha : ¬ f a = k := by
        intro ha
        have h1 : f t ∈ as.map f := List.mem_map_of_mem f hmem
        rw [hk, ← ha] at h1
        exact hn2.1 h1
      rw [List.filter_cons_of_neg (by simp [ha])]
      exact ih t hn2.2 hmem hk

theorem mem_filter_key_ne {α : Type} (f : α → Nat) (k : Nat) (l : List α)
    (j : α) : j ∈ l.filter (fun x => f x != k) ↔ (j ∈ l ∧ f j ≠ k) := by
  simp [List.mem_filter]

theorem length_filter_key_ne {α : Type} (f : α → Nat) (k : Nat) (l : List α)
    (t : α) (hn : (l.map f).Nodup) (ht : t ∈ l) (hk : f t = k) :
    (l.filter (fun x => f x != k)).length + 1 = l.length := by
  have hpart : l.length = (l.filter (fun x => f x != k)).length +
      (l.filter (fun x => !(f x != k))).length :=
    List.length_eq_length_filter_add _
  have hfilter2 : l.filter (fun x => !(f x != k)) =
      l.filter (fun x => f x == k) := by
    apply List.filter_congr
    intro b _
    simp [bne]
  rw [hfilter2, filter_key_eq_singleton f k l t hn ht hk] at hpart
  simp at hpart
  omega

/-- `projects.find(p => p.id === activeProjectId) || projects[0]`
(`activeProject` memo, src/App.tsx lines 121-123). -/
def findActiveProject (projects : List Project) (activeId : Nat) :
    Option Project :=
  match projects.find? (fun p => p.id == activeId) with
  | some p => some p
  | none => projects.head?

/-- `activeProject.issues.find(i => i.id === id)?.annotationId` inside
`onDeleteIssue` (src/App.tsx line 1268). -/
def deletedIssueTarget (ap : Project) (iid : Nat) : Option Nat :=
  (ap.issues.find? (fun i => i.id == iid)).bind (fun i => i.annotationId)

/-- `activeProject.issues.filter(i => i.id !== id)`. -/
def deleteIssueIssues (ap : Project) (iid : Nat) : List Issue :=
  ap.issues.filter (fun i => i.id != iid)

/-- `activeProject.annotations.filter(a => a.id !== deleted?.annotationId)`:
when the deleted issue is missing or has no `annotationId`, the comparison
is against `undefined` and every annotation is kept. -/
def deleteIssueAnnotations (ap : Project) (iid : Nat) : List Annotation :=
  ap.annotations.filter (fun a => some a.id != deletedIssueTarget ap iid)

/-- `onDeleteIssue` (src/App.tsx line 1268): `pushHistory()` then
`updateActiveProject({issues: ..., annotations: ...})`, which maps the
project list replacing every project whose id equals the active id.  The
`none` branch (empty project collection) is unreachable in the app — the
collection always keeps at least one project — and in the source it would
throw reading `activeProject.issues`; it is embedded as a no-op. -/
def onDeleteIssueState (activeId iid : Nat) (s : HistState) : HistState :=
  match findActiveProject s.projects activeId with
  | none => s
  | some ap =>
      { past := (pushHistory s).past,
        projects := s.projects.map (fun p =>
          if p.id = activeId then
            { p with issues := deleteIssueIssues ap iid,
                     annotations := deleteIssueAnnotations ap iid }
          else p) }

/-- **C8**: `deleteIssue(id)` pushes a history snapshot of the pre-action
collection first, touches no other project, and in the active project
removes exactly the targeted issue; if that issue carries an
`annotationId` it removes exactly the annotation with that id, otherwise
the annotation list is returned unchanged. -/
theorem c8_delete_issue (s : HistState) (activeId iid : Nat) (ap : Project)
    (t : Issue)
    (hfind : s.projects.find? (fun p => p.id == activeId) = some ap)
    (ht : t ∈ ap.issues) (hid : t.id = iid)
    (hnIss : (ap.issues.map (fun i => i.id)).Nodup)
    (hnAnn : (ap.annotations.map (fun a => a.id)).Nodup)
    (hnProj : (s.projects.map (fun p => p.id)).Nodup) :
    ((onDeleteIssueState activeId iid s).past = (pushHistory s).past ∧
      (onDeleteIssueState activeId iid s).past.getLast? = some s.projects) ∧
    (∀ (i : ℕ) (q : Project), s.projects.get? i = some q → q.id ≠ activeId →
      (onDeleteIssueState activeId iid s).projects.get? i = some q) ∧
    (∀ (i : ℕ) (q : Project), s.projects.get? i = some q → q.id = activeId →
      (onDeleteIssueState activeId iid s).projects.get? i =
        some { ap with issues := deleteIssueIssues ap iid,
                       annotations := deleteIssueAnnotations ap iid }) ∧
    (∀ j : Issue, j ∈ deleteIssueIssues ap iid ↔ (j ∈ ap.issues ∧ j ≠ t)) ∧
    ((deleteIssueIssues ap iid).length + 1 = ap.issues.length) ∧
    (t.annotationId = none → deleteIssueAnnotations ap iid = ap.annotations) ∧
    (∀ aid : Nat, t.annotationId = some aid →
      (∀ b : Annotation, b ∈ deleteIssueAnnotations ap iid ↔
        (b ∈ ap.annotations ∧ b.id ≠ aid)) ∧
      (∀ u ∈ ap.annotations, u.id = aid →
        (deleteIssueAnnotations ap iid).length + 1 = ap.annotations.length)) := by
  have hfa : findActiveProject s.projects activeId = some ap := by
    rw [findActiveProject, hfind]
  have hstate : onDeleteIssueState activeId iid s =
      { past := (pushHistory s).past,
        projects := s.projects.map (fun p =>
          if p.id = activeId then
            { p with issues := deleteIssueIssues ap iid,
                     annotations := deleteIssueAnnotations ap iid }
          else p) } := by
    rw [onDeleteIssueState, hfa]
  have htar : deletedIssueTarget ap iid = t.annotationId := by
    rw [deletedIssueTarget,
      find?_eq_some_of_key Issue.id iid ap.issues t hnIss ht hid]
    rfl
  refine ⟨⟨?_, ?_⟩, ?_, ?_, ?_, ?_, ?_, ?_⟩
  · rw [hstate]
  · rw [hstate]
    show (pushHistory s).past.getLast? = some s.projects
    rw [pushHistory_past,
      List.drop_append_of_le_length (by omega : s.past.length + 1 - 20 ≤ s.past.length)]
    simp
  · intro i q hq hne
    rw [hstate]
    show (List.map _ s.projects).get? i = some q
    rw [List.get?_eq_getElem?] at hq
    rw [List.get?_eq_getElem?, List.getElem?_map, hq]
    simp [hne]
  · intro i q hq heq
    have hapmem : ap ∈ s.projects := List.mem_of_find?_eq_some hfind
    have hapid : ap.id = activeId := by
      have := List.find?_some hfind
      simpa using this
    have hqmem : q ∈ s.projects := List.get?_mem hq
    have hqap : q = ap :=
      List.inj_on_of_nodup_map hnProj hqmem hapmem (by rw [heq, hapid])
    rw [hstate]
    show (List.map _ s.projects).get? i = _
    rw [List.get?_eq_getElem?] at hq
    rw [List.get?_eq_getElem?, List.getElem?_map, hq]
    simp [hqap, hapid]
  · intro j
    rw [deleteIssueIssues, mem_filter_key_ne Issue.id iid ap.issues j]
    constructor
    · rintro ⟨hj, hne⟩
      refine ⟨hj, ?_⟩
      intro hjt
      rw [hjt, hid] at hne
      exact hne rfl
    · rintro ⟨hj, hne⟩
      refine ⟨hj, ?_⟩
      intro hjid
      exact hne (List.inj_on_of_nodup_map hnIss hj ht (by rw [hjid, hid]))
  · exact length_filter_key_ne Issue.id iid ap.issues t hnIss ht hid
  · intro hnone
    rw [deleteIssueAnnotations, htar, hnone]
    exact List.filter_eq_self.mpr (fun a _ => rfl)
  · intro aid haid
    have hpred : deleteIssueAnnotations ap iid =
        ap.annotations.filter (fun a => a.id != aid) := by
      rw [deleteIssueAnnotations, htar, haid]
      exact List.filter_congr (fun b _ => rfl)
    constructor
    · intro b
      rw [hpred]
      exact mem_filter_key_ne Annotation.id aid ap.annotations b
    · intro u hu huid
      rw [hpred]
      exact length_filter_key_ne Annotation.id aid ap.annotations u hnAnn hu huid

def c8Ann : Annotation :=
  { id := 100, devImageId := 4, x := 1, y := 1, text := "发现差异",
    type := AnnType.manual }

def c8Issue1 : Issue :=
  { id := 10, devImageId := 4, title := "手动标注", description := "",
    severity := Severity.medium, status := Status.open,
    annotationId := some 100 }

def c8Issue2 : Issue :=
  { id := 11, devImageId := 4, title := "整体风格不符", description := "",
    severity := Severity.low, status := Status.open, annotationId := none }

def c8Project : Project :=
  { id := 1, name := "示例页面", issues := [c8Issue1, c8Issue2],
    annotations := [c8Ann] }

def c8State : HistState := { past := [], projects := [c8Project] }

/-- Witness for C8: deleting the annotation-linked issue of a concrete
two-issue project pushes the pre-action snapshot, removes exactly that
issue, and removes exactly annotation 100. -/
theorem c8_witness :
    (onDeleteIssueState 1 10 c8State).past.getLast? = some c8State.projects ∧
    ((deleteIssueIssues c8Project 10).length + 1 = c8Project.issues.length) ∧
    (∀ b : Annotation, b ∈ deleteIssueAnnotations c8Project 10 ↔
      (b ∈ c8Project.annotations ∧ b.id ≠ 100)) := by
  obtain ⟨⟨hp1, hp2⟩, hq, hr, hmem, hlen, hnone, hsome⟩ :=
    c8_delete_issue c8State 1 10 c8Project c8Issue1 (by decide) (by decide)
      rfl (by decide) (by decide) (by decide)
  exact ⟨hp2, hlen, (hsome 100 rfl).1⟩

-- Embedding of the color sample hex formatting
-- (src/components/ComparisonView.tsx line 266):
--   "#" + ("000000" + ((r << 16) | (g << 8) | b).toString(16)).slice(-6).toUpperCase()

/-- Base-16 digit characters of JavaScript `Number.prototype.toString(16)`
(lowercase). -/
def hexChar (d : ℕ) : Char :=
  "0123456789abcdef".data.getD d '*'

/-- Uppercase base-16 digit characters (after `.toUpperCase()`). -/
def hexCharU (d : ℕ) : Char :=
  "0123456789ABCDEF".data.getD d '*'

/-- Fuel-based digit expansion behind `toString(16)`: most significant
digit first.  `fuel = n + 1` always suffices since a number has at most
`n + 1` base-16 digits. -/
def natToHexAux : ℕ → ℕ → List Char → List Char
  | 0, _, acc => acc
  | fuel + 1, n, acc =>
      if n < 16 then hexChar n :: acc
      else natToHexAux fuel (n / 16) (hexChar (n % 16) :: acc)

/-- JavaScript `n.toString(16)` for a nonnegative integer: base-16
lowercase digits, no leading zeros (`"0"` for zero). -/
def natToHexList (n : ℕ) : List Char :=
  natToHexAux (n + 1) n []

theorem natToHexAux_succ (fuel n : ℕ) (acc : List Char) :
    natToHexAux (fuel + 1) n acc =
      if n < 16 then hexChar n :: acc
      else natToHexAux fuel (n / 16) (hexChar (n % 16) :: acc) := rfl

theorem natToHexAux_acc : ∀ (fuel n : ℕ) (acc : List Char),
    natToHexAux fuel n acc = natToHexAux fuel n [] ++ acc := by
  intro fuel
  induction fuel with
  | zero =>
    intro n acc
    rfl
  | succ fuel ih =>
    intro n acc
    rw [natToHexAux_succ, natToHexAux_succ]
    by_cases h : n < 16
    · simp [h]
    · simp only [if_neg h]
      rw [ih (n / 16) (hexChar (n % 16) :: acc), ih (n / 16) [hexChar (n % 16)]]
      simp

theorem natToHexList_lt (n : ℕ) (h : n < 16) : natToHexList n = [hexChar n] := by
  rw [natToHexList, natToHexAux_succ, if_pos h]

theorem natToHexAux_total : ∀ (fuel : ℕ), ∀ (n : ℕ), n < fuel →
    natToHexAux fuel n [] = natToHexList n := by
  intro fuel
  induction fuel using Nat.strong_induction_on with
  | _ fuel ih =>
    intro n hn
    match fuel, hn with
    | fuel + 1, hn =>
      by_cases h16 : n < 16
      · rw [natToHexAux_succ, if_pos h16, natToHexList_lt n h16]
      · have hdiv : n / 16 + 15 ≤ n := by omega
        have hq1 : n / 16 < fuel := by omega
        have hq2 : n / 16 < n := by omega
        have hrhs : natToHexList n =
            natToHexList (n / 16) ++ [hexChar (n % 16)] := by
          have h1 : natToHexList n =
              natToHexAux n (n / 16) [hexChar (n % 16)] := by
            show natToHexAux (n + 1) n [] = _
            rw [natToHexAux_succ, if_neg h16]
          rw [h1, natToHexAux_acc, ih n (by omega) (n / 16) hq2]
        rw [natToHexAux_succ, if_neg h16, natToHexAux_acc,
          ih fuel (by omega) (n / 16) hq1, hrhs]

theorem natToHexList_ge (n : ℕ) (h : 16 ≤ n) :
    natToHexList n = natToHexList (n / 16) ++ [hexChar (n % 16)] := by
  have h16 : ¬ n < 16 := by omega
  have hq2 : n / 16 < n := by omega
  have h1 : natToHexList n = natToHexAux n (n / 16) [hexChar (n % 16)] := by
    show natToHexAux (n + 1) n [] = _
    rw [natToHexAux_succ, if_neg h16]
  rw [h1, natToHexAux_acc, natToHexAux_total n (n / 16) hq2]

theorem natToHexList_length_le : ∀ (k n : ℕ), 0 < k → n < 16 ^ k →
    (natToHexList n).length ≤ k := by
  intro k
  induction k with
  | zero =>
    intro n h
    omega
  | succ k ih =>
    intro n _ hn
    by_cases h16 : n < 16
    · rw [natToHexList_lt n h16]
      simp
    · have hk : 0 < k := by
        by_contra hk0
        have : k = 0 := by omega
        rw [this] at hn
        omega
      have hq : n / 16 < 16 ^ k := by
        have : (16 : ℕ) ^ (k + 1) = 16 * 16 ^ k := by ring
        omega
      rw [natToHexList_ge n (by omega)]
      have := ih (n / 16) hk hq
      simp
      omega

/-- The exact-width digit list: `hexDigits k n` is the `k` least
significant base-16 digits of `n`, most significant first (all of `n` when
`n < 16 ^ k`). -/
def hexDigits : ℕ → ℕ → List Char
  | 0, _ => []
  | k + 1, n => hexDigits k (n / 16) ++ [hexChar (n % 16)]

def hexDigitsU : ℕ → ℕ → List Char
  | 0, _ => []
  | k + 1, n => hexDigitsU k (n / 16) ++ [hexCharU (n % 16)]

theorem hexDigits_zero : ∀ k : ℕ, hexDigits k 0 = List.replicate k '0' := by
  intro k
  induction k with
  | zero => rfl
  | succ k ih =>
    show hexDigits k (0 / 16) ++ [hexChar (0 % 16)] = _
    rw [Nat.zero_div, ih, List.replicate_succ' k '0']
    rfl

/-- Left-padding `toString(16)` with zeros to width `k` gives exactly the
`k`-digit base-16 expansion. -/
theorem replicate_append_natToHexList : ∀ (k n : ℕ), 0 < k → n < 16 ^ k →
    List.replicate (k - (natToHexList n).length) '0' ++ natToHexList n =
      hexDigits k n := by
  intro k
  induction k with
  | zero =>
    intro n h
    omega
  | succ k ih =>
    intro n _ hn
    by_cases h16 : n < 16
    · rw [natToHexList_lt n h16]
      show List.replicate (k + 1 - 1) '0' ++ [hexChar n] =
        hexDigits k (n / 16) ++ [hexChar (n % 16)]
      rw [Nat.div_eq_of_lt h16, Nat.mod_eq_of_lt h16, hexDigits_zero k,
        Nat.add_sub_cancel]
    · have hk : 0 < k := by
        by_contra hk0
        have : k = 0 := by omega
        rw [this] at hn
        omega
      have hq : n / 16 < 16 ^ k := by
        have : (16 : ℕ) ^ (k + 1) = 16 * 16 ^ k := by ring
        omega
      have hlen : (natToHexList (n / 16)).length ≤ k :=
        natToHexList_length_le k (n / 16) hk hq
      rw [natToHexList_ge n (by omega), List.length_append]
      simp only [List.length_cons, List.length_nil, Nat.zero_add]
      rw [Nat.succ_sub_succ, ← List.append_assoc, ih (n / 16) hk hq]
      rfl

theorem toUpper_hexChar : ∀ d : ℕ, d < 16 →
    Char.toUpper (hexChar d) = hexCharU d := by decide

theorem map_toUpper_hexDigits : ∀ (k n : ℕ),
    (hexDigits k n).map Char.toUpper = hexDigitsU k n := by
  intro k
  induction k with
  | zero => intro n; rfl
  | succ k ih =>
    intro n
    show ((hexDigits k (n / 16) ++ [hexChar (n % 16)]).map Char.toUpper) = _
    rw [List.map_append, ih (n / 16)]
    show hexDigitsU k (n / 16) ++ [Char.toUpper (hexChar (n % 16))] = _
    rw [toUpper_hexChar (n % 16) (Nat.mod_lt n (by omega))]
    rfl

theorem lor_mul_two_pow_add : ∀ (k a b : ℕ), b < 2 ^ k →
    (a * 2 ^ k) ||| b = a * 2 ^ k + b := by
  intro k
  induction k with
  | zero =>
    intro a b hb
    have hb0 : b = 0 := by
      have h1 : (2 : ℕ) ^ 0 = 1 := pow_zero 2
      omega
    subst hb0
    simp
  | succ k ih =>
    intro a b hb
    have hp : (2 : ℕ) ^ (k + 1) = 2 * 2 ^ k := by ring
    have hb2 : b / 2 < 2 ^ k := by omega
    have h1 : a * 2 ^ (k + 1) = Nat.bit false (a * 2 ^ k) := by
      rw [Nat.bit_val, hp]
      simp
      try ring
    have h2 : Nat.bit (Nat.bodd b) (b / 2) = b := by
      rw [← Nat.div2_val, Nat.bit_decomp]
    have hdm : 2 * (b / 2) + b % 2 = b := by omega
    calc (a * 2 ^ (k + 1)) ||| b
        = (Nat.bit false (a * 2 ^ k)) ||| (Nat.bit (Nat.bodd b) (b / 2)) := by
          rw [h1, h2]
      _ = Nat.bit (false || Nat.bodd b) ((a * 2 ^ k) ||| (b / 2)) :=
          Nat.lor_bit _ _ _ _
      _ = Nat.bit (Nat.bodd b) (a * 2 ^ k + b / 2) := by
          rw [Bool.false_or, ih a (b / 2) hb2]
      _ = 2 * (a * 2 ^ k + b / 2) + (Nat.bodd b).toNat := Nat.bit_val _ _
      _ = a * 2 ^ (k + 1) + b := by
          rw [← Nat.mod_two_of_bodd]
          have hsplit : 2 * (a * 2 ^ k + b / 2) + b % 2 =
              2 * (a * 2 ^ k) + (2 * (b / 2) + b % 2) := by ring
          rw [hsplit, hdm, hp]
          ring

/-- For in-range bytes, the source's `(r << 16) | (g << 8) | b` equals the
positional value `r·65536 + g·256 + b`. -/
theorem js_shift_or (r g b : ℕ) (_hr : r < 256) (hg : g < 256) (hb : b < 256) :
    (r <<< 16) ||| (g <<< 8) ||| b = r * 65536 + g * 256 + b := by
  have h8 : (2 : ℕ) ^ 8 = 256 := by norm_num
  have h16 : (2 : ℕ) ^ 16 = 65536 := by norm_num
  have h3 : (r <<< 16) ||| (g <<< 8) = r * 65536 + g * 256 := by
    rw [Nat.shiftLeft_eq, Nat.shiftLeft_eq]
    have hlt : g * 2 ^ 8 < 2 ^ 16 := by
      rw [h8, h16]
      omega
    rw [lor_mul_two_pow_add 16 r (g * 2 ^ 8) hlt, h8, h16]
  have h4 : r * 65536 + g * 256 = (r * 256 + g) * 2 ^ 8 := by
    rw [h8]
    ring
  have h5 : b < 2 ^ 8 := by omega
  rw [h3, h4, lor_mul_two_pow_add 8 (r * 256 + g) b h5, h8]
  try ring

/-- The hex formatting of a sampled pixel
(src/components/ComparisonView.tsx line 266):
`"#" + ("000000" + ((r << 16) | (g << 8) | b).toString(16)).slice(-6).toUpperCase()`.
`slice(-6)` of a string of length ≥ 6 keeps the last 6 characters. -/
def rgbToHex (r g b : ℕ) : String :=
  let n := (r <<< 16) ||| (g <<< 8) ||| b
  let padded := "000000".data ++ natToHexList n
  String.mk ('#' :: (padded.drop (padded.length - 6)).map Char.toUpper)

theorem hexDigitsU_six_bytes (r g b : ℕ) (hr : r < 256) (hg : g < 256)
    (hb : b < 256) :
    hexDigitsU 6 (r * 65536 + g * 256 + b) =
      [hexCharU (r / 16), hexCharU (r % 16), hexCharU (g / 16),
       hexCharU (g % 16), hexCharU (b / 16), hexCharU (b % 16)] := by
  have e0 : (r * 65536 + g * 256 + b) % 16 = b % 16 := by omega
  have e1 : (r * 65536 + g * 256 + b) / 16 % 16 = b / 16 := by omega
  have e2 : (r * 65536 + g * 256 + b) / 16 / 16 % 16 = g % 16 := by omega
  have e3 : (r * 65536 + g * 256 + b) / 16 / 16 / 16 % 16 = g / 16 := by omega
  have e4 : (r * 65536 + g * 256 + b) / 16 / 16 / 16 / 16 % 16 = r % 16 := by
    omega
  have e5 : (r * 65536 + g * 256 + b) / 16 / 16 / 16 / 16 / 16 % 16 = r / 16 := by
    omega
  show [hexCharU ((r * 65536 + g * 256 + b) / 16 / 16 / 16 / 16 / 16 % 16),
        hexCharU ((r * 65536 + g * 256 + b) / 16 / 16 / 16 / 16 % 16),
        hexCharU ((r * 65536 + g * 256 + b) / 16 / 16 / 16 % 16),
        hexCharU ((r * 65536 + g * 256 + b) / 16 / 16 % 16),
        hexCharU ((r * 65536 + g * 256 + b) / 16 % 16),
        hexCharU ((r * 65536 + g * 256 + b) % 16)] = _
  rw [e0, e1, e2, e3, e4, e5]

/-- Formatting correctness: for byte components the sampled color string is
`'#'` followed by the six uppercase hex digits of r, g, b (two each,
leading zeros included). -/
theorem rgbToHex_eq_digits (r g b : ℕ) (hr : r < 256) (hg : g < 256)
    (hb : b < 256) :
    rgbToHex r g b = String.mk ('#' ::
      [hexCharU (r / 16), hexCharU (r % 16), hexCharU (g / 16),
       hexCharU (g % 16), hexCharU (b / 16), hexCharU (b % 16)]) := by
  have hn : (r <<< 16) ||| (g <<< 8) ||| b = r * 65536 + g * 256 + b :=
    js_shift_or r g b hr hg hb
  have h6 : (16 : ℕ) ^ 6 = 16777216 := by norm_num
  have hlt : r * 65536 + g * 256 + b < 16 ^ 6 := by omega
  have hlen : (natToHexList (r * 65536 + g * 256 + b)).length ≤ 6 :=
    natToHexList_length_le 6 _ (by omega) hlt
  show String.mk ('#' ::
      ((("000000".data ++ natToHexList ((r <<< 16) ||| (g <<< 8) ||| b)).drop
        (("000000".data ++
          natToHexList ((r <<< 16) ||| (g <<< 8) ||| b)).length - 6)).map
        Char.toUpper)) = _
  rw [hn]
  rw [show "000000".data = List.replicate 6 '0' from rfl]
  rw [List.length_append, List.length_replicate]
  rw [show 6 + (natToHexList (r * 65536 + g * 256 + b)).length - 6 =
    (natToHexList (r * 65536 + g * 256 + b)).length from by omega]
  rw [List.drop_append_of_le_length (by simpa using hlen), List.drop_replicate]
  rw [replicate_append_natToHexList 6 _ (by omega) hlt]
  rw [map_toUpper_hexDigits 6 _, hexDigitsU_six_bytes r g b hr hg hb]

/-- The offscreen sampling canvas (`samplingCanvasRef`), sized to the dev
image's natural dimensions.  `pixelAt` models
`ctx.getImageData(px, py, 1, 1).data`: the RGB triple read at the given
source coordinates; components of a `Uint8ClampedArray` are `< 256`. -/
structure Canvas where
  width : ℕ
  height : ℕ
  pixelAt : ℚ → ℚ → ℕ × ℕ × ℕ

/-- The immediate effect of `handleToolMouseDown`
(src/components/ComparisonView.tsx lines 250-281). -/
inductive DownEffect where
  | panned
  | colorCommit (p : PartialAnn)
  | beginAlign
  | beginInteraction (start : Pt)
deriving Repr

/-- `handleToolMouseDown`: ignore while panning; with the color picker and
a ready sampling canvas, sample `(x/100·width, y/100·height)` and commit a
`color` annotation at the click point whose `text` and `color` both carry
the hex string; the aligner begins an overlay drag in overlay mode; every
other case (including a color picker whose canvas is not yet loaded)
captures `interactionStart` at the click point. -/
def handleToolMouseDown (isSpacePressed : Bool) (activeTool : ToolMode)
    (mode : ComparisonMode) (samplingCanvas : Option Canvas) (coords : Pt) :
    DownEffect :=
  if isSpacePressed ∨ activeTool = ToolMode.HAND then DownEffect.panned
  else
    match activeTool, samplingCanvas with
    | ToolMode.COLOR_PICKER, some canvas =>
        let px := coords.x / 100 * (canvas.width : ℚ)
        let py := coords.y / 100 * (canvas.height : ℚ)
        let rgb := canvas.pixelAt px py
        let hex := rgbToHex rgb.1 rgb.2.1 rgb.2.2
        DownEffect.colorCommit
          { x := some coords.x, y := some coords.y, type := some AnnType.color,
            color := some hex, text := some hex }
    | tool, _ =>
        if tool = ToolMode.ALIGNER ∧ mode = ComparisonMode.OVERLAY then
          DownEffect.beginAlign
        else
          DownEffect.beginInteraction coords

/-- **C6**: Sampling RGB byte components always formats as `'#'` plus six
uppercase hex digits (two per component, leading zeros included), and a
color-picker pointer-down commits a `color` annotation at the sampled
point whose `text` and `color` both equal that hex string. -/
theorem c6_color_sample (r g b : ℕ) (hr : r < 256) (hg : g < 256)
    (hb : b < 256) :
    (rgbToHex r g b = String.mk ('#' ::
      [hexCharU (r / 16), hexCharU (r % 16), hexCharU (g / 16),
       hexCharU (g % 16), hexCharU (b / 16), hexCharU (b % 16)])) ∧
    (rgbToHex r g b).length = 7 ∧
    (∀ (canvas : Canvas) (coords : Pt) (mode : ComparisonMode),
      canvas.pixelAt (coords.x / 100 * (canvas.width : ℚ))
          (coords.y / 100 * (canvas.height : ℚ)) = (r, g, b) →
      handleToolMouseDown false ToolMode.COLOR_PICKER mode (some canvas)
          coords =
        DownEffect.colorCommit
          { x := some coords.x, y := some coords.y,
            type := some AnnType.color, color := some (rgbToHex r g b),
            text := some (rgbToHex r g b) }) := by
  refine ⟨rgbToHex_eq_digits r g b hr hg hb, ?_, ?_⟩
  · rw [rgbToHex_eq_digits r g b hr hg hb]
    rfl
  · intro canvas coords mode hpix
    show (if False ∨ ToolMode.COLOR_PICKER = ToolMode.HAND then DownEffect.panned
      else _) = _
    rw [if_neg (by simp)]
    show DownEffect.colorCommit _ = _
    rw [hpix]

def c6Canvas : Canvas :=
  { width := 100, height := 100, pixelAt := fun _ _ => (255, 0, 128) }

/-- Witness for C6: the pixel (255, 0, 128) formats as exactly "#FF0080"
and a color-picker click at (50, 50) commits the matching annotation. -/
theorem c6_witness :
    rgbToHex 255 0 128 = "#FF0080" ∧
    handleToolMouseDown false ToolMode.COLOR_PICKER
        ComparisonMode.SIDE_BY_SIDE (some c6Canvas) ⟨50, 50⟩ =
      DownEffect.colorCommit
        { x := some 50, y := some 50, type := some AnnType.color,
          color := some "#FF0080", text := some "#FF0080" } := by
  have h := c6_color_sample 255 0 128 (by decide) (by decide) (by decide)
  have hhex : rgbToHex 255 0 128 = "#FF0080" := by
    rw [h.1]
    decide
  have h3 := h.2.2 c6Canvas ⟨50, 50⟩ ComparisonMode.SIDE_BY_SIDE rfl
  rw [hhex] at h3
  exact ⟨hhex, h3⟩

/-- The fields of a `KeyboardEvent` read by `handleKeyDown`
(src/App.tsx lines 137-170).  `isRepeat` is the event's `repeat` flag. -/
structure KeyEvent where
  key : String
  code : String
  ctrlKey : Bool
  metaKey : Bool
  shiftKey : Bool
  isRepeat : Bool
deriving DecidableEq, Repr

/-- The App state touched by the keyboard handler: document/history plus
viewport scale, pan position, and the spacebar-panning flag. -/
structure UIState where
  hist : HistState
  scale : ℚ
  position : ℚ × ℚ
  isSpacePressed : Bool
deriving DecidableEq, Repr

/-- JavaScript `String.prototype.toLowerCase()` (ASCII suffices for the
key names compared here): lowercases every character. -/
def jsToLowerCase (s : String) : String := String.mk (s.data.map Char.toLower)

/-- `handleKeyDown` (src/App.tsx lines 137-170), all four branches in
source order.  `activeElementTag` is `document.activeElement?.tagName`
(the empty string when there is no focused element).  Note that only the
spacebar branch consults it; the undo branch does not. -/
def handleKeyDown (e : KeyEvent) (activeElementTag : String) (s : UIState) :
    UIState :=
  let isCtrlOrCmd := e.metaKey || e.ctrlKey
  let s1 := if e.code = "Space" ∧ e.isRepeat = false ∧
      activeElementTag ≠ "INPUT" ∧ activeElementTag ≠ "TEXTAREA"
    then { s with isSpacePressed := true } else s
  let s2 := if isCtrlOrCmd = true ∧ jsToLowerCase e.key = "z" ∧
      e.shiftKey = false
    then { s1 with hist := handleUndo s1.hist } else s1
  let s3 := if isCtrlOrCmd = true ∧ (e.key = "=" ∨ e.key = "+")
    then { s2 with scale := min (s2.scale * 1.2) 5 } else s2
  let s4 := if isCtrlOrCmd = true ∧ (e.key = "-" ∨ e.key = "_")
    then { s3 with scale := max (s3.scale / 1.2) 0.1 } else s3
  if isCtrlOrCmd = true ∧ e.key = "0"
    then { s4 with scale := 1, position := (0, 0) } else s4

def c9Event : KeyEvent :=
  { key := "z", code := "KeyZ", ctrlKey := true, metaKey := false,
    shiftKey := false, isRepeat := false }

def c9State : UIState :=
  { hist := { past := [[]], projects := [sampleProject] }, scale := 1,
    position := (0, 0), isSpacePressed := false }

/-- **C9 counterexample**: with a text input focused
(`activeElementTag = "INPUT"`), Ctrl+Z still performs the undo — the
project collection changes — contradicting the claim that no undo is
performed while a text input or textarea has focus. -/
theorem c9_counterexample :
    (handleKeyDown c9Event "INPUT" c9State).hist.projects = [] ∧
    c9State.hist.projects = [sampleProject] ∧
    (handleKeyDown c9Event "INPUT" c9State).hist.projects ≠
      c9State.hist.projects := by
  refine ⟨by decide, rfl, by decide⟩

/-- **C9 (amended)**: Ctrl/Cmd+Z without Shift triggers undo for every
keydown event regardless of the focused element — the focus guard exists
only in the spacebar-panning branch, not the undo branch. -/
theorem c9_undo_ignores_focus (e : KeyEvent) (tag : String) (s : UIState)
    (hmods : (e.metaKey || e.ctrlKey) = true)
    (hkey : jsToLowerCase e.key = "z") (hshift : e.shiftKey = false) :
    (handleKeyDown e tag s).hist = handleUndo s.hist := by
  have hne1 : e.key ≠ "=" := by
    intro h
    rw [h] at hkey
    exact absurd hkey (by decide)
  have hne2 : e.key ≠ "+" := by
    intro h
    rw [h] at hkey
    exact absurd hkey (by decide)
  have hne3 : e.key ≠ "-" := by
    intro h
    rw [h] at hkey
    exact absurd hkey (by decide)
  have hne4 : e.key ≠ "_" := by
    intro h
    rw [h] at hkey
    exact absurd hkey (by decide)
  have hne5 : e.key ≠ "0" := by
    intro h
    rw [h] at hkey
    exact absurd hkey (by decide)
  simp only [handleKeyDown]
  rw [if_neg (by rintro ⟨_, h⟩; exact hne5 h)]
  rw [if_neg (by rintro ⟨_, h | h⟩; exacts [hne3 h, hne4 h])]
  rw [if_neg (by rintro ⟨_, h | h⟩; exacts [hne1 h, hne2 h])]
  rw [if_pos ⟨hmods, hkey, hshift⟩]
  by_cases hsp : (e.code = "Space" ∧ e.isRepeat = false ∧
      tag ≠ "INPUT" ∧ tag ≠ "TEXTAREA")
  · rw [if_pos hsp]
  · rw [if_neg hsp]

/-- Witness for the amended C9: the concrete Ctrl+Z event performs the
undo even with an INPUT focused. -/
theorem c9_witness :
    (c9Event.metaKey || c9Event.ctrlKey) = true ∧
    jsToLowerCase c9Event.key = "z" ∧ c9Event.shiftKey = false ∧
    (handleKeyDown c9Event "INPUT" c9State).hist = handleUndo c9State.hist :=
  ⟨rfl, by decide, rfl,
    c9_undo_ignores_focus c9Event "INPUT" c9State rfl (by decide) rfl⟩
